import Mathlib

/-!
Formal model of the NIVA lumen-contour pipeline.

Shallow embedding of the geometry core of the repository:
  - src/input_output/contours.py  (mask to contour extraction, downsampling)
  - src/gui/geometry.py           (Spline: periodic fit and single-point edit)
  - src/report/report.py          (per-frame metrics: farthest / closest points,
                                   elliptic ratio, compute_all loop)

Modelling conventions.

Float coordinates are embedded as rationals.  A float value that may be NaN
is embedded as `Option ℚ` with `none` playing the role of NaN: every
comparison `none < x` and `x < none` is false, exactly as every comparison
against a float NaN is false.  This is what lets the embedding reach the
`closest_points` fallback branch of report.py, which the source reaches
only when every computed distance compares false against the running
minimum.

Euclidean distances are embedded as squared distances.  The source code
(`math.dist`) only ever compares distances against each other and against
the initial accumulator values (0 and infinity), and the squaring map is
strictly monotone on nonnegative reals, so every comparison, every selected
pair and every tie is identical under the squared embedding; the final
scaling `d * resolution` of the source corresponds to `d^2 * resolution^2`
here.

A Python statement that raises an uncaught exception is embedded as the
`none` value of an `Option`-returning function, kept distinct from any
regular result.

External library calls (scipy splprep+splev, skimage find_contours,
matplotlib contains_point) are taken as parameters of the embedded
functions, so every theorem below quantifies over their behaviour; the
try/except structure around them is embedded faithfully.
-/

/-- Float value that may be NaN: `none` is NaN. -/
abbrev F := Option ℚ

/-- Point with possibly-NaN coordinates. -/
abbrev Pt := F × F

/-- Squared Euclidean distance of `math.dist`; NaN (`none`) when any
coordinate is NaN, as in IEEE arithmetic. -/
def distSq (p q : Pt) : Option ℚ :=
  match p, q with
  | (some x1, some y1), (some x2, some y2) =>
      some ((x2 - x1) ^ 2 + (y2 - y1) ^ 2)
  | _, _ => none

/-- Squared distance of a pair of points. -/
def distSq2 (pq : Pt × Pt) : Option ℚ := distSq pq.1 pq.2

/-- Point with both coordinates finite. -/
def ptFinite (p : Pt) : Prop := (p.1.isSome = true) ∧ (p.2.isSome = true)

instance (p : Pt) : Decidable (ptFinite p) :=
  inferInstanceAs (Decidable ((p.1.isSome = true) ∧ (p.2.isSome = true)))

/-- Python `range(0, stop, step)` as used in contours.py: raises ValueError
(`none`) when the step is zero, else the indices 0, step, 2*step, ... below
`stop`. -/
def pyRange (stop step : ℕ) : Option (List ℕ) :=
  if step = 0 then none
  else some ((List.range ((stop + step - 1) / step)).map (fun i => i * step))

/-- Body of the per-frame branch of `downsample` in contours.py: an empty
frame is left empty; otherwise indices `range(0, len, len // num_points)`
are sampled from both coordinate lists.  `none` models the uncaught
ValueError that `range` raises when the stride `len // num_points` is
zero. -/
def downsampleFrame (cx cy : List ℚ) (num_points : ℕ) : Option (List ℚ × List ℚ) :=
  if cx.isEmpty then some ([], [])
  else
    match pyRange cx.length (cx.length / num_points) with
    | none => none
    | some idxs => some (idxs.map (fun i => cx.getD i 0), idxs.map (fun i => cy.getD i 0))

/-- The function `downsample` of contours.py over all frames; `none` models
an uncaught exception in some frame. -/
def downsample (contours : List (List ℚ) × List (List ℚ)) (num_points : ℕ) :
    Option (List (List ℚ) × List (List ℚ)) :=
  ((List.range contours.1.length).mapM (fun f =>
      downsampleFrame (contours.1.getD f []) (contours.2.getD f []) num_points)).map
    (fun l => (l.map Prod.fst, l.map Prod.snd))

/-- A concrete 30-point contour. -/
def c30 : List ℚ := (List.range 30).map (fun i => (i : ℚ))

/-- A concrete 5-point contour. -/
def c5 : List ℚ := [0, 1, 2, 3, 4]

/-- C3 counterexample: a 30-point frame (length ≥ K = 20) is downsampled to
30 points, not at most 20: the stride is 30 / 20 = 1, so every point is
kept. -/
theorem downsample_c30_count :
    ((downsample ([c30], [c30]) 20).map (fun p => (p.1.getD 0 []).length)) = some 30 ∧
      ¬ (30 ≤ 20) := by
  constructor
  · decide
  · decide

/-- C3 amended: for a frame of length ≥ K > 0 the stride is ⌊len/K⌋ ≥ 1 and
the output has exactly ⌈len/stride⌉ points, sampled at indices 0, stride,
2·stride, ...; this count is always at least K, not at most K. -/
theorem downsample_count_ge (cx cy : List ℚ) (K : ℕ) (hK : 0 < K) (hlen : K ≤ cx.length) :
    ∃ xs ys, downsampleFrame cx cy K = some (xs, ys) ∧
      xs.length = (cx.length + cx.length / K - 1) / (cx.length / K) ∧
      K ≤ xs.length ∧
      xs = (List.range xs.length).map (fun i => cx.getD (i * (cx.length / K)) 0) ∧
      ys = (List.range xs.length).map (fun i => cy.getD (i * (cx.length / K)) 0) := by
  have hlp : 0 < cx.length := lt_of_lt_of_le hK hlen
  have hne : cx.isEmpty = false := by
    cases cx with
    | nil => simp at hlp
    | cons a l => simp [List.isEmpty]
  have hs : 0 < cx.length / K := (Nat.one_le_div_iff hK).mpr hlen
  have hs0 : ¬ (cx.length / K = 0) := Nat.pos_iff_ne_zero.mp hs
  refine ⟨(List.range ((cx.length + cx.length / K - 1) / (cx.length / K))).map
            (fun i => cx.getD (i * (cx.length / K)) 0),
          (List.range ((cx.length + cx.length / K - 1) / (cx.length / K))).map
            (fun i => cy.getD (i * (cx.length / K)) 0),
          ?_, ?_, ?_, ?_, ?_⟩
  · simp [downsampleFrame, hne, pyRange, hs0, List.map_map, Function.comp]
  · simp
  · simp only [List.length_map, List.length_range]
    rw [Nat.le_div_iff_mul_le hs]
    have h1 : cx.length / K * K ≤ cx.length := Nat.div_mul_le_self _ _
    calc K * (cx.length / K) = cx.length / K * K := Nat.mul_comm _ _
      _ ≤ cx.length := h1
      _ ≤ cx.length + cx.length / K - 1 := by omega
  · simp
  · simp

/-- Closed instance of the C3 amended theorem at the 30-point contour. -/
theorem downsample_count_ge_inst :
    0 < 20 ∧ 20 ≤ c30.length ∧
      (∃ xs ys, downsampleFrame c30 c30 20 = some (xs, ys) ∧
        xs.length = (c30.length + c30.length / 20 - 1) / (c30.length / 20) ∧
        20 ≤ xs.length ∧
        xs = (List.range xs.length).map (fun i => c30.getD (i * (c30.length / 20)) 0) ∧
        ys = (List.range xs.length).map (fun i => c30.getD (i * (c30.length / 20)) 0)) :=
  ⟨by decide, by decide, downsample_count_ge c30 c30 20 (by decide) (by decide)⟩

/-- C4 counterexample: a nonempty 5-point frame (length < K = 20) makes the
stride ⌊5/20⌋ = 0, and `range(0, 5, 0)` raises ValueError: the call crashes
(`none`) instead of returning the five points unchanged. -/
theorem downsample_c5_none :
    downsample ([c5], [c5]) 20 = none ∧
      downsample ([c5], [c5]) 20 ≠ some ([c5], [c5]) := by
  constructor
  · decide
  · decide

/-- C4 amended: a nonempty frame shorter than the target count K yields a
zero stride and the sampling raises an uncaught ValueError (`none`); the
points are not returned. -/
theorem downsample_short_raises (cx cy : List ℚ) (K : ℕ) (h0 : cx ≠ []) (hlt : cx.length < K) :
    downsampleFrame cx cy K = none := by
  have hne : cx.isEmpty = false := by
    cases cx with
    | nil => exact absurd rfl h0
    | cons a l => simp [List.isEmpty]
  have hs : cx.length / K = 0 := Nat.div_eq_of_lt hlt
  simp [downsampleFrame, hne, pyRange, hs]

/-- Closed instance of the C4 amended theorem at the 5-point contour. -/
theorem downsample_short_raises_inst :
    c5 ≠ [] ∧ c5.length < 20 ∧ downsampleFrame c5 c5 20 = none :=
  ⟨by decide, by decide, downsample_short_raises c5 c5 20 (by decide) (by decide)⟩

/-- Python `itertools.combinations(l, 2)`: all unordered pairs in index
order, outer index first. -/
def combinations2 : List Pt → List (Pt × Pt)
  | [] => []
  | p :: rest => rest.map (fun q => (p, q)) ++ combinations2 rest

/-- One iteration of the farthest_points loop of report.py: update the
running maximum and achieving pair when the distance compares strictly
greater; a NaN distance compares false and leaves the accumulator
unchanged. -/
def farthestStep (acc : ℚ × Option (Pt × Pt)) (pq : Pt × Pt) : ℚ × Option (Pt × Pt) :=
  match distSq2 pq with
  | none => acc
  | some d => if acc.1 < d then (d, some pq) else acc

/-- The function `farthest_points` of report.py.  The running maximum starts
at 0 with no achieving pair; `none` models the uncaught TypeError raised by
`farthest_points[0]` when the pair is still Python None at the end of the
loop.  Distances are squared, so the scaling is by the squared
resolution. -/
def farthest_points (res : ℚ) (exterior_coords : List Pt) : Option (ℚ × (List F × List F)) :=
  match (combinations2 exterior_coords).foldl farthestStep (0, none) with
  | (_, none) => none
  | (maxd, some (p1, p2)) => some (maxd * res ^ 2, ([p1.1, p2.1], [p1.2, p2.2]))

/-- Candidate pairs of the closest_points loop of report.py: the loop body
runs for indices 0, 1, ... and stops once the incremented first index
reaches `num_points // 2`, so it always runs at least once (a do-while),
pairing index i with index i + num_points // 2. -/
def closestCandidates (contour : List Pt) : List (Pt × Pt) :=
  (List.range (max (contour.length / 2) 1)).map
    (fun i => (contour.getD i (some 0, some 0),
               contour.getD (i + contour.length / 2) (some 0, some 0)))

/-- One iteration of the closest_points loop: the running minimum starts at
math.inf with no achieving pair (`none` accumulator); a NaN distance
compares false against everything and leaves the accumulator unchanged. -/
def closestStep (acc : Option (ℚ × (Pt × Pt))) (pq : Pt × Pt) : Option (ℚ × (Pt × Pt)) :=
  match distSq2 pq with
  | none => acc
  | some d =>
    match acc with
    | none => some (d, pq)
    | some (m, best) => if d < m then some (d, pq) else some (m, best)

/-- The function `closest_points` of report.py.  The outer `none` models the
uncaught IndexError of `contour[0]` on an empty coordinate sequence; when
the loop finishes with the achieving pair still Python None, the except
TypeError branch returns the zero fallback. -/
def closest_points (res : ℚ) (contour : List Pt) : Option (ℚ × (List F × List F)) :=
  if contour.isEmpty then none
  else
    match (closestCandidates contour).foldl closestStep none with
    | some (m, (p1, p2)) => some (m * res ^ 2, ([p1.1, p2.1], [p1.2, p2.2]))
    | none => some (0, ([some 0, some 0], [some 0, some 0]))

lemma mem_combinations2 : ∀ (l : List Pt) (pq : Pt × Pt),
    pq ∈ combinations2 l → pq.1 ∈ l ∧ pq.2 ∈ l := by
  intro l
  induction l with
  | nil => intro pq h; simp [combinations2] at h
  | cons p rest ih =>
    intro pq h
    simp only [combinations2, List.mem_append, List.mem_map] at h
    rcases h with ⟨q, hq, hpq⟩ | h
    · subst hpq; exact ⟨List.mem_cons_self _ _, List.mem_cons_of_mem _ hq⟩
    · obtain ⟨h1, h2⟩ := ih pq h
      exact ⟨List.mem_cons_of_mem _ h1, List.mem_cons_of_mem _ h2⟩

lemma distSq_isSome (p q : Pt) (hp : ptFinite p) (hq : ptFinite q) :
    (distSq p q).isSome = true := by
  obtain ⟨x1, hx1⟩ := Option.isSome_iff_exists.mp hp.1
  obtain ⟨y1, hy1⟩ := Option.isSome_iff_exists.mp hp.2
  obtain ⟨x2, hx2⟩ := Option.isSome_iff_exists.mp hq.1
  obtain ⟨y2, hy2⟩ := Option.isSome_iff_exists.mp hq.2
  obtain ⟨pa, pb⟩ := p
  obtain ⟨qa, qb⟩ := q
  simp only at hx1 hy1 hx2 hy2
  subst hx1 hy1 hx2 hy2
  simp [distSq]

lemma farthestFold_no_update (ps : List (Pt × Pt)) :
    ∀ (m : ℚ) (b : Option (Pt × Pt)),
      (∀ pq ∈ ps, ∀ d, distSq2 pq = some d → d ≤ m) →
      ps.foldl farthestStep (m, b) = (m, b) := by
  induction ps with
  | nil => intro m b _; rfl
  | cons pq rest ih =>
    intro m b h
    simp only [List.foldl_cons]
    have hstep : farthestStep (m, b) pq = (m, b) := by
      cases hd : distSq2 pq with
      | none => simp [farthestStep, hd]
      | some d =>
        have hle : d ≤ m := h pq (List.mem_cons_self _ _) d hd
        simp [farthestStep, hd, not_lt.mpr hle]
    rw [hstep]
    exact ih m b (fun pq2 h2 d hd => h pq2 (List.mem_cons_of_mem _ h2) d hd)

lemma farthestFold_first (ps : List (Pt × Pt)) (M : ℚ) :
    ∀ (m : ℚ) (b : Option (Pt × Pt)) (pq₀ : Pt × Pt),
      (∀ pq ∈ ps, ∀ d, distSq2 pq = some d → d ≤ M) →
      ps.find? (fun pq => decide (distSq2 pq = some M)) = some pq₀ →
      m < M →
      ps.foldl farthestStep (m, b) = (M, some pq₀) := by
  induction ps with
  | nil => intro m b pq₀ _ hf _; simp at hf
  | cons pq rest ih =>
    intro m b pq₀ hub hf hm
    simp only [List.foldl_cons]
    by_cases hMd : distSq2 pq = some M
    · rw [List.find?_cons_of_pos _ (by simp [hMd])] at hf
      have hpq : pq = pq₀ := by injection hf
      have hstep : farthestStep (m, b) pq = (M, some pq) := by
        simp [farthestStep, hMd, hm]
      rw [hstep, hpq]
      exact farthestFold_no_update rest M (some pq₀)
        (fun pq2 h2 d hd => hub pq2 (List.mem_cons_of_mem _ h2) d hd)
    · rw [List.find?_cons_of_neg _ (by simp [hMd])] at hf
      have hub2 : ∀ pq2 ∈ rest, ∀ d, distSq2 pq2 = some d → d ≤ M :=
        fun pq2 h2 d hd => hub pq2 (List.mem_cons_of_mem _ h2) d hd
      cases hd : distSq2 pq with
      | none =>
        have hstep : farthestStep (m, b) pq = (m, b) := by simp [farthestStep, hd]
        rw [hstep]
        exact ih m b pq₀ hub2 hf hm
      | some d =>
        have hdM : d ≤ M := hub pq (List.mem_cons_self _ _) d hd
        have hdM2 : d < M := lt_of_le_of_ne hdM (by
          intro h; exact hMd (by rw [hd, h]))
        by_cases hmd : m < d
        · have hstep : farthestStep (m, b) pq = (d, some pq) := by
            simp [farthestStep, hd, hmd]
          rw [hstep]
          exact ih d (some pq) pq₀ hub2 hf hdM2
        · have hstep : farthestStep (m, b) pq = (m, b) := by
            simp [farthestStep, hd, hmd]
          rw [hstep]
          exact ih m b pq₀ hub2 hf hm

lemma farthestFold_isSome (ps : List (Pt × Pt)) :
    ∀ (m : ℚ) (b : Option (Pt × Pt)),
      ((∃ pq ∈ ps, ∃ d, distSq2 pq = some d ∧ m < d) ∨ b.isSome = true) →
      ((ps.foldl farthestStep (m, b)).2).isSome = true := by
  induction ps with
  | nil =>
    intro m b h
    rcases h with ⟨pq, hmem, _⟩ | hb
    · simp at hmem
    · simpa using hb
  | cons pq rest ih =>
    intro m b h
    simp only [List.foldl_cons]
    rcases h with ⟨pq1, hmem, d, hd, hmd⟩ | hb
    · rcases List.mem_cons.mp hmem with heq | hmem2
      · subst heq
        have hstep : farthestStep (m, b) pq1 = (d, some pq1) := by
          simp [farthestStep, hd, hmd]
        rw [hstep]
        exact ih d (some pq1) (Or.inr rfl)
      · cases hd2 : distSq2 pq with
        | none =>
          have hstep : farthestStep (m, b) pq = (m, b) := by simp [farthestStep, hd2]
          rw [hstep]
          exact ih m b (Or.inl ⟨pq1, hmem2, d, hd, hmd⟩)
        | some d2 =>
          by_cases hlt : m < d2
          · have hstep : farthestStep (m, b) pq = (d2, some pq) := by
              simp [farthestStep, hd2, hlt]
            rw [hstep]
            exact ih d2 (some pq) (Or.inr rfl)
          · have hstep : farthestStep (m, b) pq = (m, b) := by
              simp [farthestStep, hd2, hlt]
            rw [hstep]
            exact ih m b (Or.inl ⟨pq1, hmem2, d, hd, hmd⟩)
    · have : ((farthestStep (m, b) pq).2).isSome = true := by
        cases hd2 : distSq2 pq with
        | none => simpa [farthestStep, hd2] using hb
        | some d2 =>
          by_cases hlt : m < d2
          · simp [farthestStep, hd2, hlt]
          · simpa [farthestStep, hd2, hlt] using hb
      rcases hacc : farthestStep (m, b) pq with ⟨m2, b2⟩
      rw [hacc] at this
      exact ih m2 b2 (Or.inr this)

lemma closestFold_none (ps : List (Pt × Pt))
    (h : ∀ pq ∈ ps, distSq2 pq = none) :
    ps.foldl closestStep none = none := by
  induction ps with
  | nil => rfl
  | cons pq rest ih =>
    simp only [List.foldl_cons]
    have hstep : closestStep none pq = none := by
      simp [closestStep, h pq (List.mem_cons_self _ _)]
    rw [hstep]
    exact ih (fun pq2 h2 => h pq2 (List.mem_cons_of_mem _ h2))

lemma closestFold_no_update (ps : List (Pt × Pt)) :
    ∀ (m : ℚ) (best : Pt × Pt),
      (∀ pq ∈ ps, ∀ d, distSq2 pq = some d → m ≤ d) →
      ps.foldl closestStep (some (m, best)) = some (m, best) := by
  induction ps with
  | nil => intro m best _; rfl
  | cons pq rest ih =>
    intro m best h
    simp only [List.foldl_cons]
    have hstep : closestStep (some (m, best)) pq = some (m, best) := by
      cases hd : distSq2 pq with
      | none => simp [closestStep, hd]
      | some d =>
        have hle : m ≤ d := h pq (List.mem_cons_self _ _) d hd
        simp [closestStep, hd, not_lt.mpr hle]
    rw [hstep]
    exact ih m best (fun pq2 h2 d hd => h pq2 (List.mem_cons_of_mem _ h2) d hd)

lemma closestFold_first (ps : List (Pt × Pt)) (M : ℚ) :
    ∀ (acc : Option (ℚ × (Pt × Pt))) (pq₀ : Pt × Pt),
      (∀ pq ∈ ps, ∀ d, distSq2 pq = some d → M ≤ d) →
      ps.find? (fun pq => decide (distSq2 pq = some M)) = some pq₀ →
      (acc = none ∨ ∃ m best, acc = some (m, best) ∧ M < m) →
      ps.foldl closestStep acc = some (M, pq₀) := by
  induction ps with
  | nil => intro acc pq₀ _ hf _; simp at hf
  | cons pq rest ih =>
    intro acc pq₀ hlb hf hinv
    simp only [List.foldl_cons]
    by_cases hMd : distSq2 pq = some M
    · rw [List.find?_cons_of_pos _ (by simp [hMd])] at hf
      have hpq : pq = pq₀ := by injection hf
      have hstep : closestStep acc pq = some (M, pq) := by
        rcases hinv with hnone | ⟨m, best, hacc, hm⟩
        · subst hnone; simp [closestStep, hMd]
        · subst hacc; simp [closestStep, hMd, hm]
      rw [hstep, hpq]
      exact closestFold_no_update rest M pq₀
        (fun pq2 h2 d hd => hlb pq2 (List.mem_cons_of_mem _ h2) d hd)
    · rw [List.find?_cons_of_neg _ (by simp [hMd])] at hf
      have hlb2 : ∀ pq2 ∈ rest, ∀ d, distSq2 pq2 = some d → M ≤ d :=
        fun pq2 h2 d hd => hlb pq2 (List.mem_cons_of_mem _ h2) d hd
      cases hd : distSq2 pq with
      | none =>
        have hstep : closestStep acc pq = acc := by
          cases acc <;> simp [closestStep, hd]
        rw [hstep]
        exact ih acc pq₀ hlb2 hf hinv
      | some d =>
        have hdM : M ≤ d := hlb pq (List.mem_cons_self _ _) d hd
        have hdM2 : M < d := lt_of_le_of_ne hdM (by
          intro h; exact hMd (by rw [hd, h]))
        rcases hinv with hnone | ⟨m, best, hacc, hm⟩
        · subst hnone
          have hstep : closestStep none pq = some (d, pq) := by
            simp [closestStep, hd]
          rw [hstep]
          exact ih (some (d, pq)) pq₀ hlb2 hf (Or.inr ⟨d, pq, rfl, hdM2⟩)
        · subst hacc
          by_cases hdm : d < m
          · have hstep : closestStep (some (m, best)) pq = some (d, pq) := by
              simp [closestStep, hd, hdm]
            rw [hstep]
            exact ih (some (d, pq)) pq₀ hlb2 hf (Or.inr ⟨d, pq, rfl, hdM2⟩)
          · have hstep : closestStep (some (m, best)) pq = some (m, best) := by
              simp [closestStep, hd, hdm]
            rw [hstep]
            exact ih (some (m, best)) pq₀ hlb2 hf (Or.inr ⟨m, best, rfl, hm⟩)

lemma exists_max_first (ps : List (Pt × Pt)) :
    ps ≠ [] →
    (∀ pq ∈ ps, (distSq2 pq).isSome = true) →
    ∃ M pq₀, ps.find? (fun pq => decide (distSq2 pq = some M)) = some pq₀ ∧
      distSq2 pq₀ = some M ∧
      (∀ pq ∈ ps, ∀ d, distSq2 pq = some d → d ≤ M) := by
  induction ps with
  | nil => intro h _; exact absurd rfl h
  | cons pq rest ih =>
    intro _ hfin
    obtain ⟨d, hd⟩ := Option.isSome_iff_exists.mp (hfin pq (List.mem_cons_self _ _))
    cases rest with
    | nil =>
      refine ⟨d, pq, ?_, hd, ?_⟩
      · rw [List.find?_cons_of_pos _ (by simp [hd])]
      · intro pq2 h2 d2 hd2
        rcases List.mem_cons.mp h2 with heq | h2
        · subst heq; rw [hd] at hd2; injection hd2 with h; exact le_of_eq h.symm
        · simp at h2
    | cons pq2 rest2 =>
      obtain ⟨M, pq₀, hfind, hd₀, hub⟩ :=
        ih (by simp) (fun x hx => hfin x (List.mem_cons_of_mem _ hx))
      by_cases hcmp : M ≤ d
      · refine ⟨d, pq, ?_, hd, ?_⟩
        · rw [List.find?_cons_of_pos _ (by simp [hd])]
        · intro x hx dx hdx
          rcases List.mem_cons.mp hx with heq | hx
          · subst heq; rw [hd] at hdx; injection hdx with h; exact le_of_eq h.symm
          · exact le_trans (hub x hx dx hdx) hcmp
      · push_neg at hcmp
        refine ⟨M, pq₀, ?_, hd₀, ?_⟩
        · rw [List.find?_cons_of_neg _ (by
            simp only [decide_eq_true_eq]
            intro h
            rw [hd] at h
            injection h with h2
            exact absurd h2 (ne_of_lt hcmp))]
          exact hfind
        · intro x hx dx hdx
          rcases List.mem_cons.mp hx with heq | hx
          · subst heq; rw [hd] at hdx; injection hdx with h; rw [← h]; exact le_of_lt hcmp
          · exact hub x hx dx hdx

lemma exists_min_first (ps : List (Pt × Pt)) :
    ps ≠ [] →
    (∀ pq ∈ ps, (distSq2 pq).isSome = true) →
    ∃ M pq₀, ps.find? (fun pq => decide (distSq2 pq = some M)) = some pq₀ ∧
      distSq2 pq₀ = some M ∧
      (∀ pq ∈ ps, ∀ d, distSq2 pq = some d → M ≤ d) := by
  induction ps with
  | nil => intro h _; exact absurd rfl h
  | cons pq rest ih =>
    intro _ hfin
    obtain ⟨d, hd⟩ := Option.isSome_iff_exists.mp (hfin pq (List.mem_cons_self _ _))
    cases rest with
    | nil =>
      refine ⟨d, pq, ?_, hd, ?_⟩
      · rw [List.find?_cons_of_pos _ (by simp [hd])]
      · intro pq2 h2 d2 hd2
        rcases List.mem_cons.mp h2 with heq | h2
        · subst heq; rw [hd] at hd2; injection hd2 with h; exact le_of_eq h
        · simp at h2
    | cons pq2 rest2 =>
      obtain ⟨M, pq₀, hfind, hd₀, hlb⟩ :=
        ih (by simp) (fun x hx => hfin x (List.mem_cons_of_mem _ hx))
      by_cases hcmp : d ≤ M
      · refine ⟨d, pq, ?_, hd, ?_⟩
        · rw [List.find?_cons_of_pos _ (by simp [hd])]
        · intro x hx dx hdx
          rcases List.mem_cons.mp hx with heq | hx
          · subst heq; rw [hd] at hdx; injection hdx with h; exact le_of_eq h
          · exact le_trans hcmp (hlb x hx dx hdx)
      · push_neg at hcmp
        refine ⟨M, pq₀, ?_, hd₀, ?_⟩
        · rw [List.find?_cons_of_neg _ (by
            simp only [decide_eq_true_eq]
            intro h
            rw [hd] at h
            injection h with h2
            exact absurd h2 (ne_of_gt hcmp))]
          exact hfind
        · intro x hx dx hdx
          rcases List.mem_cons.mp hx with heq | hx
          · subst heq; rw [hd] at hdx; injection hdx with h; rw [← h]; exact le_of_lt hcmp
          · exact hlb x hx dx hdx

lemma closestCandidates_eq (contour : List Pt) (h2 : 2 ≤ contour.length) :
    closestCandidates contour =
      (List.range (contour.length / 2)).map
        (fun i => (contour.getD i (some 0, some 0),
                   contour.getD (i + contour.length / 2) (some 0, some 0))) := by
  have hn2 : 1 ≤ contour.length / 2 := (Nat.one_le_div_iff (by norm_num)).mpr h2
  simp [closestCandidates, max_eq_left hn2]

lemma closestCandidates_finite (contour : List Pt) (h2 : 2 ≤ contour.length)
    (hfin : ∀ p ∈ contour, ptFinite p) :
    ∀ pq ∈ closestCandidates contour, (distSq2 pq).isSome = true := by
  intro pq hpq
  simp only [closestCandidates, List.mem_map, List.mem_range] at hpq
  obtain ⟨i, hi, hpq⟩ := hpq
  have hn2 : 1 ≤ contour.length / 2 := (Nat.one_le_div_iff (by norm_num)).mpr h2
  rw [max_eq_left hn2] at hi
  have hi1 : i < contour.length := lt_of_lt_of_le hi (Nat.div_le_self _ _)
  have hi2 : i + contour.length / 2 < contour.length := by omega
  subst hpq
  apply distSq_isSome
  · apply hfin
    rw [List.getD_eq_getElem _ _ hi1]
    exact List.getElem_mem _
  · apply hfin
    rw [List.getD_eq_getElem _ _ hi2]
    exact List.getElem_mem _

/-- C1: for a contour of N ≥ 2 exterior points, the width search considers
exactly the pairs (i, i + N/2) for i in 0..N/2-1 and returns the minimum
(squared, resolution-scaled) distance over those pairs, together with the
first achieving pair; no other pair enters the loop. -/
theorem closest_points_spec (res : ℚ) (contour : List Pt)
    (h2 : 2 ≤ contour.length)
    (hfin : ∀ p ∈ contour, ptFinite p) :
    ∃ M p1 p2,
      closestCandidates contour =
        (List.range (contour.length / 2)).map
          (fun i => (contour.getD i (some 0, some 0),
                     contour.getD (i + contour.length / 2) (some 0, some 0))) ∧
      (∀ pq ∈ closestCandidates contour, ∀ d, distSq2 pq = some d → M ≤ d) ∧
      (closestCandidates contour).find? (fun pq => decide (distSq2 pq = some M)) =
        some (p1, p2) ∧
      distSq2 (p1, p2) = some M ∧
      closest_points res contour = some (M * res ^ 2, ([p1.1, p2.1], [p1.2, p2.2])) := by
  have hlen : (closestCandidates contour).length = max (contour.length / 2) 1 := by
    simp [closestCandidates]
  have hne : closestCandidates contour ≠ [] := by
    apply List.length_pos.mp
    rw [hlen]
    exact lt_of_lt_of_le one_pos (le_max_right _ _)
  obtain ⟨M, pq₀, hfind, hd₀, hlb⟩ :=
    exists_min_first _ hne (closestCandidates_finite contour h2 hfin)
  obtain ⟨p1, p2⟩ := pq₀
  refine ⟨M, p1, p2, closestCandidates_eq contour h2, hlb, hfind, hd₀, ?_⟩
  have hfold := closestFold_first (closestCandidates contour) M none (p1, p2) hlb hfind
    (Or.inl rfl)
  have hemp : contour.isEmpty = false := by
    cases contour with
    | nil => simp at h2
    | cons a l => simp [List.isEmpty]
  simp [closest_points, hemp, hfold]

/-- Input for the C1 witness: four finite points. -/
def contour4 : List Pt :=
  [(some 0, some 0), (some 3, some 0), (some 0, some 4), (some 1, some 0)]

/-- Closed instance of the C1 theorem at a four-point contour. -/
theorem closest_points_spec_inst :
    2 ≤ contour4.length ∧ (∀ p ∈ contour4, ptFinite p) ∧
      (∃ M p1 p2,
        closestCandidates contour4 =
          (List.range (contour4.length / 2)).map
            (fun i => (contour4.getD i (some 0, some 0),
                       contour4.getD (i + contour4.length / 2) (some 0, some 0))) ∧
        (∀ pq ∈ closestCandidates contour4, ∀ d, distSq2 pq = some d → M ≤ d) ∧
        (closestCandidates contour4).find? (fun pq => decide (distSq2 pq = some M)) =
          some (p1, p2) ∧
        distSq2 (p1, p2) = some M ∧
        closest_points 2 contour4 = some (M * 2 ^ 2, ([p1.1, p2.1], [p1.2, p2.2]))) :=
  ⟨by decide, by decide, closest_points_spec 2 contour4 (by decide) (by decide)⟩

/-- C7: when every candidate pair of the width search has an invalid (NaN)
distance, the loop never updates its accumulator, the achieving pair stays
Python None, and the except TypeError branch returns shortest distance 0
with the pair (0,0),(0,0): no error propagates. -/
theorem closest_points_fallback (res : ℚ) (contour : List Pt)
    (hne : contour ≠ [])
    (hnan : ∀ pq ∈ closestCandidates contour, distSq2 pq = none) :
    closest_points res contour = some (0, ([some 0, some 0], [some 0, some 0])) := by
  have hemp : contour.isEmpty = false := by
    cases contour with
    | nil => exact absurd rfl hne
    | cons a l => simp [List.isEmpty]
  have hfold := closestFold_none _ hnan
  simp [closest_points, hemp, hfold]

/-- Input for the C7 witness: a contour with a NaN coordinate. -/
def contourNaN : List Pt := [((none : F), (some 0 : F)), ((some 1 : F), (some 0 : F))]

/-- Closed instance of the C7 theorem at a contour with a NaN coordinate. -/
theorem closest_points_fallback_inst :
    contourNaN ≠ [] ∧ (∀ pq ∈ closestCandidates contourNaN, distSq2 pq = none) ∧
      closest_points 1 contourNaN = some (0, ([some 0, some 0], [some 0, some 0])) :=
  ⟨by decide, by decide, closest_points_fallback 1 contourNaN (by decide) (by decide)⟩

/-- C5: the longest distance is the exact maximum over all unordered pairs
(in itertools.combinations index order), resolution-scaled, and the
returned pair is the first pair in that order achieving the maximum. -/
theorem farthest_points_spec (res : ℚ) (coords : List Pt)
    (hfin : ∀ p ∈ coords, ptFinite p)
    (hpos : ∃ pq ∈ combinations2 coords, ∃ d, distSq2 pq = some d ∧ 0 < d) :
    ∃ M p1 p2,
      (∀ pq ∈ combinations2 coords, ∀ d, distSq2 pq = some d → d ≤ M) ∧
      (combinations2 coords).find? (fun pq => decide (distSq2 pq = some M)) =
        some (p1, p2) ∧
      distSq2 (p1, p2) = some M ∧ 0 < M ∧
      farthest_points res coords = some (M * res ^ 2, ([p1.1, p2.1], [p1.2, p2.2])) := by
  obtain ⟨pqp, hpqmem, dp, hdp, hdpos⟩ := hpos
  have hne : combinations2 coords ≠ [] := by
    intro h
    rw [h] at hpqmem
    simp at hpqmem
  have hfin2 : ∀ pq ∈ combinations2 coords, (distSq2 pq).isSome = true := by
    intro pq hpq
    obtain ⟨h1, h2⟩ := mem_combinations2 _ pq hpq
    exact distSq_isSome _ _ (hfin _ h1) (hfin _ h2)
  obtain ⟨M, pq₀, hfind, hd₀, hub⟩ := exists_max_first _ hne hfin2
  have hMpos : 0 < M := lt_of_lt_of_le hdpos (hub pqp hpqmem dp hdp)
  obtain ⟨p1, p2⟩ := pq₀
  refine ⟨M, p1, p2, hub, hfind, hd₀, hMpos, ?_⟩
  have hfold := farthestFold_first (combinations2 coords) M 0 none (p1, p2) hub hfind hMpos
  simp [farthest_points, hfold]

/-- Input for the C5 witness: three collinear finite points. -/
def coords3 : List Pt := [(some 0, some 0), (some 1, some 0), (some 3, some 0)]

/-- Closed instance of the C5 theorem at a three-point input. -/
theorem farthest_points_spec_inst :
    (∀ p ∈ coords3, ptFinite p) ∧
      (∃ pq ∈ combinations2 coords3, ∃ d, distSq2 pq = some d ∧ 0 < d) ∧
      (∃ M p1 p2,
        (∀ pq ∈ combinations2 coords3, ∀ d, distSq2 pq = some d → d ≤ M) ∧
        (combinations2 coords3).find? (fun pq => decide (distSq2 pq = some M)) =
          some (p1, p2) ∧
        distSq2 (p1, p2) = some M ∧ 0 < M ∧
        farthest_points 1 coords3 = some (M * 1 ^ 2, ([p1.1, p2.1], [p1.2, p2.2]))) :=
  ⟨by decide,
   ⟨((some 0, some 0), (some 1, some 0)), by simp [coords3, combinations2], 1,
     by norm_num [distSq2, distSq], by norm_num⟩,
   farthest_points_spec 1 coords3 (by decide)
     ⟨((some 0, some 0), (some 1, some 0)), by simp [coords3, combinations2], 1,
       by norm_num [distSq2, distSq], by norm_num⟩⟩

/-- C10: farthest_points returns a result whenever some pair of exterior
points is at strictly positive distance, but when every pair is at distance
zero (all points coincide, or fewer than two points) the achieving pair
stays Python None and the function ends in an uncaught TypeError (`none`),
with no zero fallback. -/
theorem farthest_points_requires_spread :
    (∀ (res : ℚ) (coords : List Pt),
        (∃ pq ∈ combinations2 coords, ∃ d, distSq2 pq = some d ∧ 0 < d) →
        ∃ v, farthest_points res coords = some v) ∧
    (∀ (res : ℚ) (coords : List Pt),
        (∀ pq ∈ combinations2 coords, distSq2 pq = some 0) →
        farthest_points res coords = none) := by
  constructor
  · intro res coords hpos
    have hsome := farthestFold_isSome (combinations2 coords) 0 none (Or.inl hpos)
    rcases hfold : (combinations2 coords).foldl farthestStep (0, none) with ⟨m, b⟩
    rw [hfold] at hsome
    cases b with
    | none => simp at hsome
    | some pq =>
      obtain ⟨q1, q2⟩ := pq
      exact ⟨(m * res ^ 2, ([q1.1, q2.1], [q1.2, q2.2])), by simp [farthest_points, hfold]⟩
  · intro res coords hzero
    have hfold := farthestFold_no_update (combinations2 coords) 0 none
      (fun pq hpq d hd => by
        rw [hzero pq hpq] at hd
        injection hd with h
        exact le_of_eq h.symm)
    simp [farthest_points, hfold]

/-- Closed instance of the C10 theorem: a spread pair succeeds, coincident
points crash. -/
theorem farthest_points_requires_spread_inst :
    (∃ v, farthest_points 1 [((some 0 : F), (some 0 : F)), ((some 1 : F), (some 0 : F))] =
      some v) ∧
    farthest_points 1 [((some 0 : F), (some 0 : F)), ((some 0 : F), (some 0 : F))] = none :=
  ⟨farthest_points_requires_spread.1 1 _
     ⟨(((some 0 : F), (some 0 : F)), ((some 1 : F), (some 0 : F))),
       by simp [combinations2], 1, by norm_num [distSq2, distSq], by norm_num⟩,
   farthest_points_requires_spread.2 1 _
     (by norm_num [combinations2, distSq2, distSq])⟩

/-- Abstract scipy fit oracle: splprep at s=0, per=1 followed by splev at
500 parameters, as wrapped by Spline.interpolate; `none` stands for the
ValueError that splprep raises on degenerate knot input (too few points,
duplicate points, singular system). -/
abbrev Fit := List ℚ → List ℚ → Option (List ℚ × List ℚ)

/-- The Spline state of gui/geometry.py: the stored knot points and the
derived dense contour, each Python None at first. -/
structure Spline where
  knotpoints : Option (List ℚ × List ℚ)
  full_contour : Option (List ℚ × List ℚ)
  deriving DecidableEq, Repr

/-- Spline.interpolate: the try/except ValueError around splprep returns
(None, None) exactly when the fit oracle fails. -/
def Spline.interpolate (fit : Fit) (ptsX ptsY : List ℚ) : Option (List ℚ × List ℚ) :=
  fit ptsX ptsY

/-- Spline.setKnotPoints (the constructor path): an IndexError on empty
input is caught and leaves both fields None; a failed interpolation leaves
full_contour at (None, None) and never assigns knotpoints. -/
def Spline.setKnotPoints (fit : Fit) (ptsX ptsY : List ℚ) : Spline :=
  if ptsX.isEmpty || ptsY.isEmpty then { knotpoints := none, full_contour := none }
  else
    match Spline.interpolate fit ptsX ptsY with
    | none => { knotpoints := none, full_contour := none }
    | some fc => { knotpoints := some (ptsX, ptsY), full_contour := some fc }

/-- The knot mutation at the head of Spline.update: index len+1 appends,
an index below len assigns in place, and any other index models the
uncaught IndexError of the item assignment. -/
def updatedKnots (kx ky : List ℚ) (pos : ℚ × ℚ) (idx : ℕ) : Option (List ℚ × List ℚ) :=
  if idx = kx.length + 1 then some (kx ++ [pos.1], ky ++ [pos.2])
  else if idx < kx.length then some (kx.set idx pos.1, ky.set idx pos.2)
  else none

/-- Spline.update: mutate one knot, then recompute the entire curve with a
fresh interpolation over all knot points.  The result is `none` (an
uncaught exception) when the stored knotpoints are Python None (TypeError
on len), when the index is invalid (IndexError), or when the refit fails:
in that last case full_contour is (None, None) and the unguarded
`len(self.full_contour[0])` raises TypeError. -/
def Spline.update (fit : Fit) (s : Spline) (pos : ℚ × ℚ) (idx : ℕ) : Option Spline :=
  match s.knotpoints with
  | none => none
  | some (kx, ky) =>
    match updatedKnots kx ky pos idx with
    | none => none
    | some (kx2, ky2) =>
      match Spline.interpolate fit kx2 ky2 with
      | none => none
      | some fc => some { knotpoints := some (kx2, ky2), full_contour := some fc }

/-- A concrete fit oracle for the C2 counterexample, failing exactly on the
failure modes the spec names: fewer than four knots or duplicate knots. -/
def fitDup : Fit := fun kx ky =>
  if kx.length < 4 || !kx.Nodup || !ky.Nodup then none else some (kx, ky)

/-- C2 counterexample: a successful four-knot spline is edited so that two
knots coincide; the refit fails, and Spline.update ends in an uncaught
TypeError (`none`) instead of a graceful no-contour state. -/
theorem spline_update_crash :
    Spline.interpolate fitDup [1, 1, 2, 3] [9, 4, 5, 6] = none ∧
      Spline.update fitDup (Spline.setKnotPoints fitDup [0, 1, 2, 3] [0, 4, 5, 6])
        (1, 9) 0 = none := by
  constructor
  · decide
  · decide

/-- C2 amended: a fit failure in the constructor path yields the explicit
no-contour state (both fields None) with no exception; but in the
single-point edit path a fit failure is an uncaught TypeError, while a
successful refit recomputes the whole curve from the full edited knot
list. -/
theorem spline_fit_failure_handling (fit : Fit) :
    (∀ ptsX ptsY, ptsX ≠ [] → ptsY ≠ [] → fit ptsX ptsY = none →
      Spline.setKnotPoints fit ptsX ptsY = { knotpoints := none, full_contour := none }) ∧
    (∀ (s : Spline) kx ky kx2 ky2 pos idx, s.knotpoints = some (kx, ky) →
      updatedKnots kx ky pos idx = some (kx2, ky2) →
      fit kx2 ky2 = none →
      Spline.update fit s pos idx = none) ∧
    (∀ (s : Spline) kx ky kx2 ky2 pos idx fc, s.knotpoints = some (kx, ky) →
      updatedKnots kx ky pos idx = some (kx2, ky2) →
      fit kx2 ky2 = some fc →
      Spline.update fit s pos idx =
        some { knotpoints := some (kx2, ky2), full_contour := some fc }) := by
  refine ⟨?_, ?_, ?_⟩
  · intro ptsX ptsY hx hy hfit
    have hex : ptsX.isEmpty = false := by
      cases ptsX with
      | nil => exact absurd rfl hx
      | cons a l => simp [List.isEmpty]
    have hey : ptsY.isEmpty = false := by
      cases ptsY with
      | nil => exact absurd rfl hy
      | cons a l => simp [List.isEmpty]
    simp [Spline.setKnotPoints, Spline.interpolate, hex, hey, hfit]
  · intro s kx ky kx2 ky2 pos idx hknots hupd hfit
    simp [Spline.update, hknots, hupd, Spline.interpolate, hfit]
  · intro s kx ky kx2 ky2 pos idx fc hknots hupd hfit
    simp [Spline.update, hknots, hupd, Spline.interpolate, hfit]

/-- Closed instance of the C2 amended theorem: a failing fit on two knots is
handled gracefully by the constructor; the edit path crashes on a refit
failure; a successful refit recomputes the curve. -/
theorem spline_fit_failure_handling_inst :
    Spline.setKnotPoints fitDup [0, 1] [0, 1] =
        { knotpoints := none, full_contour := none } ∧
      Spline.update fitDup ⟨some ([0, 1, 2, 3], [0, 4, 5, 6]), some ([], [])⟩ (1, 9) 0 =
        none ∧
      Spline.update fitDup ⟨some ([0, 1, 2, 3], [0, 4, 5, 6]), some ([], [])⟩ (7, 9) 0 =
        some { knotpoints := some ([7, 1, 2, 3], [9, 4, 5, 6]),
               full_contour := some ([7, 1, 2, 3], [9, 4, 5, 6]) } :=
  ⟨(spline_fit_failure_handling fitDup).1 [0, 1] [0, 1] (by decide) (by decide) (by decide),
   (spline_fit_failure_handling fitDup).2.1
     ⟨some ([0, 1, 2, 3], [0, 4, 5, 6]), some ([], [])⟩ [0, 1, 2, 3] [0, 4, 5, 6]
     [1, 1, 2, 3] [9, 4, 5, 6] (1, 9) 0 rfl (by decide) (by decide),
   (spline_fit_failure_handling fitDup).2.2
     ⟨some ([0, 1, 2, 3], [0, 4, 5, 6]), some ([], [])⟩ [0, 1, 2, 3] [0, 4, 5, 6]
     [7, 1, 2, 3] [9, 4, 5, 6] (7, 9) 0 ([7, 1, 2, 3], [9, 4, 5, 6]) rfl (by decide)
     (by decide)⟩

/-- Binary mask frame, row-major. -/
abbrev Mask := List (List ℕ)

/-- Point list as returned by skimage measure.find_contours: (row, col)
vertices of one traced boundary. -/
abbrev RawContour := List (ℚ × ℚ)

/-- Coordinate-pair form np.array((contour[:,0], contour[:,1])) built by
label_contours: (row list, col list). -/
abbrev Contour2 := List ℚ × List ℚ

/-- Abstract iso-contour tracer (skimage measure.find_contours at the 0.5
level). -/
abbrev FindContours := Mask → List RawContour

/-- Abstract point-in-polygon test (matplotlib Path.contains_point). -/
abbrev ContainsPoint := List (ℚ × ℚ) → ℕ × ℕ → Bool

/-- label_contours of contours.py: trace the boundaries and store each one
as the pair of its row and col coordinate lists. -/
def label_contours (find : FindContours) (image : Mask) : List Contour2 :=
  (find image).map (fun c => (c.map Prod.fst, c.map Prod.snd))

/-- keep_valid_contour of contours.py: the boundary is valid if its path
contains the mask center (⌊H/2⌋, ⌊W/2⌋). -/
def keep_valid_contour (contains : ContainsPoint) (contour : Contour2)
    (image_shape : ℕ × ℕ) : Bool :=
  contains (contour.1.zip contour.2) (image_shape.1 / 2, image_shape.2 / 2)

/-- One iteration of the keep_largest_contour fold: keep the contour when it
is valid and strictly longer than the best so far; the kept data swaps the
coordinate order to (col list, row list). -/
def klcStep (contains : ContainsPoint) (image_shape : ℕ × ℕ)
    (acc : ℕ × (List ℚ × List ℚ)) (c : Contour2) : ℕ × (List ℚ × List ℚ) :=
  if keep_valid_contour contains c image_shape = true ∧ acc.1 < c.1.length
  then (c.1.length, (c.2, c.1)) else acc

/-- keep_largest_contour of contours.py: max_length starts at 0 and the kept
contour starts empty. -/
def keep_largest_contour (contains : ContainsPoint) (contours : List Contour2)
    (image_shape : ℕ × ℕ) : List ℚ × List ℚ :=
  (contours.foldl (klcStep contains image_shape) (0, ([], []))).2

/-- np.any(preds[frame] == 1) of get_contours. -/
def hasForeground (m : Mask) : Bool :=
  m.any (fun row => row.any (fun v => v == 1))

/-- get_contours of contours.py: per frame, either the selected boundary of
a foreground mask or the empty contour. -/
def get_contours (find : FindContours) (contains : ContainsPoint) (preds : List Mask)
    (image_shape : ℕ × ℕ) : List (List ℚ) × List (List ℚ) :=
  let per := preds.map (fun frame =>
    if hasForeground frame then
      keep_largest_contour contains (label_contours find frame) image_shape
    else ([], []))
  (per.map Prod.fst, per.map Prod.snd)

lemma klc_fold_spec (contains : ContainsPoint) (image_shape : ℕ × ℕ)
    (cs : List Contour2) :
    ∀ (m : ℕ) (keep : List ℚ × List ℚ),
      (cs.foldl (klcStep contains image_shape) (m, keep) = (m, keep) ∧
        ∀ c ∈ cs, keep_valid_contour contains c image_shape = true → c.1.length ≤ m) ∨
      (∃ c₀ ∈ cs, keep_valid_contour contains c₀ image_shape = true ∧
        cs.foldl (klcStep contains image_shape) (m, keep) = (c₀.1.length, (c₀.2, c₀.1)) ∧
        m < c₀.1.length ∧
        ∀ c ∈ cs, keep_valid_contour contains c image_shape = true →
          c.1.length ≤ c₀.1.length) := by
  induction cs with
  | nil =>
    intro m keep
    left
    exact ⟨rfl, by intro c hc; simp at hc⟩
  | cons c rest ih =>
    intro m keep
    simp only [List.foldl_cons]
    by_cases hc : keep_valid_contour contains c image_shape = true ∧ m < c.1.length
    · have hstep : klcStep contains image_shape (m, keep) c = (c.1.length, (c.2, c.1)) := by
        simp [klcStep, hc]
      rw [hstep]
      rcases ih c.1.length (c.2, c.1) with ⟨heq, hub⟩ | ⟨c₀, hc₀, hval, heq, hlt, hub⟩
      · right
        refine ⟨c, List.mem_cons_self _ _, hc.1, heq, hc.2, ?_⟩
        intro x hx hvx
        rcases List.mem_cons.mp hx with heqx | hx
        · subst heqx; exact le_refl _
        · exact hub x hx hvx
      · right
        refine ⟨c₀, List.mem_cons_of_mem _ hc₀, hval, heq, lt_trans hc.2 hlt, ?_⟩
        intro x hx hvx
        rcases List.mem_cons.mp hx with heqx | hx
        · subst heqx; exact le_of_lt hlt
        · exact hub x hx hvx
    · have hstep : klcStep contains image_shape (m, keep) c = (m, keep) := by
        simp only [klcStep, if_neg hc]
      rw [hstep]
      rcases ih m keep with ⟨heq, hub⟩ | ⟨c₀, hc₀, hval, heq, hlt, hub⟩
      · left
        refine ⟨heq, ?_⟩
        intro x hx hvx
        rcases List.mem_cons.mp hx with heqx | hx
        · subst heqx
          rcases not_and_or.mp hc with h1 | h2
          · exact absurd hvx h1
          · exact le_of_not_lt h2
        · exact hub x hx hvx
      · right
        refine ⟨c₀, List.mem_cons_of_mem _ hc₀, hval, heq, hlt, ?_⟩
        intro x hx hvx
        rcases List.mem_cons.mp hx with heqx | hx
        · subst heqx
          rcases not_and_or.mp hc with h1 | h2
          · exact absurd hvx h1
          · exact le_trans (le_of_not_lt h2) (le_of_lt hlt)
        · exact hub x hx hvx

lemma get_contours_frame (find : FindContours) (contains : ContainsPoint)
    (preds : List Mask) (image_shape : ℕ × ℕ) (f : ℕ) (hf : f < preds.length) :
    ((get_contours find contains preds image_shape).1.getD f [],
     (get_contours find contains preds image_shape).2.getD f []) =
      (if hasForeground (preds.getD f []) = true
       then keep_largest_contour contains (label_contours find (preds.getD f [])) image_shape
       else ([], [])) := by
  unfold get_contours
  simp only
  rw [List.getD_eq_getElem _ _ (by simpa using hf), List.getD_eq_getElem _ _ (by simpa using hf)]
  simp only [List.getElem_map]
  rw [List.getD_eq_getElem _ _ hf]

/-- C6: per mask frame, extraction returns the empty contour when the mask
has no foreground pixel; with foreground, every traced boundary that does
not contain the center (⌊H/2⌋, ⌊W/2⌋) is discarded — if none contains it
the result is empty — and otherwise the result is a center-containing
boundary of maximal vertex count (coordinates swapped to x, y order). -/
theorem get_contours_center_filter (find : FindContours) (contains : ContainsPoint)
    (preds : List Mask) (image_shape : ℕ × ℕ) (f : ℕ) (hf : f < preds.length) :
    (hasForeground (preds.getD f []) = false →
      ((get_contours find contains preds image_shape).1.getD f [],
       (get_contours find contains preds image_shape).2.getD f []) = ([], [])) ∧
    (hasForeground (preds.getD f []) = true →
      ((∀ c ∈ label_contours find (preds.getD f []),
          keep_valid_contour contains c image_shape = false) →
        ((get_contours find contains preds image_shape).1.getD f [],
         (get_contours find contains preds image_shape).2.getD f []) = ([], [])) ∧
      ((∀ c ∈ label_contours find (preds.getD f []), c.1 ≠ []) →
        (∃ c ∈ label_contours find (preds.getD f []),
          keep_valid_contour contains c image_shape = true) →
        ∃ c₀ ∈ label_contours find (preds.getD f []),
          keep_valid_contour contains c₀ image_shape = true ∧
          ((get_contours find contains preds image_shape).1.getD f [],
           (get_contours find contains preds image_shape).2.getD f []) = (c₀.2, c₀.1) ∧
          ∀ c ∈ label_contours find (preds.getD f []),
            keep_valid_contour contains c image_shape = true →
            c.1.length ≤ c₀.1.length)) := by
  have hframe := get_contours_frame find contains preds image_shape f hf
  constructor
  · intro hfg
    rw [hframe, hfg]
    simp
  · intro hfg
    rw [hfg] at hframe
    simp only [if_true] at hframe
    constructor
    · intro hnone
      rw [hframe]
      unfold keep_largest_contour
      rcases klc_fold_spec contains image_shape (label_contours find (preds.getD f [])) 0
          ([], []) with ⟨heq, _⟩ | ⟨c₀, hc₀, hval, _, _, _⟩
      · rw [heq]
      · rw [hnone c₀ hc₀] at hval
        exact absurd hval (by simp)
    · intro hnonempty hex
      rcases klc_fold_spec contains image_shape (label_contours find (preds.getD f [])) 0
          ([], []) with ⟨_, hub⟩ | ⟨c₀, hc₀, hval, heq, _, hub⟩
      · obtain ⟨c, hc, hvc⟩ := hex
        have hlen0 : c.1.length ≤ 0 := hub c hc hvc
        have : c.1 = [] := List.length_eq_zero.mp (Nat.le_zero.mp hlen0)
        exact absurd this (hnonempty c hc)
      · refine ⟨c₀, hc₀, hval, ?_, hub⟩
        rw [hframe]
        unfold keep_largest_contour
        rw [heq]

/-- Concrete tracer for the C6 witness: two boundaries on any mask. -/
def findW : FindContours := fun _ =>
  [[(0, 0), (1, 0)], [(0, 0), (2, 0), (0, 2)]]

/-- Concrete containment test for the C6 witness: a path contains the
center exactly when it has at least three vertices. -/
def containsW : ContainsPoint := fun path _ => decide (3 ≤ path.length)

/-- Closed instance of the C6 theorem on a 2x2 one-frame mask: the
three-vertex boundary contains the center and wins. -/
theorem get_contours_center_filter_inst :
    ∃ c₀ ∈ label_contours findW ([[1, 0], [0, 0]] : Mask),
      keep_valid_contour containsW c₀ (2, 2) = true ∧
      ((get_contours findW containsW [[[1, 0], [0, 0]]] (2, 2)).1.getD 0 [],
       (get_contours findW containsW [[[1, 0], [0, 0]]] (2, 2)).2.getD 0 []) =
        (c₀.2, c₀.1) ∧
      ∀ c ∈ label_contours findW ([[1, 0], [0, 0]] : Mask),
        keep_valid_contour containsW c (2, 2) = true → c.1.length ≤ c₀.1.length :=
  ((get_contours_center_filter findW containsW [[[1, 0], [0, 0]]] (2, 2) 0 (by decide)).2
      (by decide)).2 (by decide)
    ⟨([0, 2, 0], [0, 0, 2]), by decide, by decide⟩

lemma getD_set_ne (l : List ℚ) (v d : ℚ) : ∀ {i j : ℕ}, i ≠ j →
    (l.set i v).getD j d = l.getD j d := by
  induction l with
  | nil => intro i j _; simp
  | cons a t ih =>
    intro i j h
    cases i with
    | zero =>
      cases j with
      | zero => exact absurd rfl h
      | succ j2 => simp
    | succ i2 =>
      cases j with
      | zero => simp
      | succ j2 =>
        have h2 : i2 ≠ j2 := fun hh => h (by rw [hh])
        show (a :: t.set i2 v).getD (j2 + 1) d = (a :: t).getD (j2 + 1) d
        simp only [List.getD_cons_succ]
        exact ih h2

lemma getD_set_self (l : List ℚ) (v d : ℚ) : ∀ {i : ℕ}, i < l.length →
    (l.set i v).getD i d = v := by
  induction l with
  | nil => intro i h; simp at h
  | cons a t ih =>
    intro i h
    cases i with
    | zero => simp
    | succ i2 =>
      show (a :: t.set i2 v).getD (i2 + 1) d = v
      simp only [List.getD_cons_succ]
      exact ih (by simpa using h)

/-- Per-frame raw metric values, as produced inside the compute_all loop of
report.py by the Spline fit, compute_polygon_metrics, farthest_points,
closest_points and centroid_center_vector for one frame. -/
structure FrameComputation where
  area : ℚ
  circumf : ℚ
  cx : ℚ
  cy : ℚ
  longest : ℚ
  shortest : ℚ
  vlen : ℚ
  vangle : ℚ
  deriving DecidableEq, Repr

/-- The per-frame metric containers of main_window.data written by
compute_all. -/
structure MetricArrays where
  lumen_area : List ℚ
  lumen_circumf : List ℚ
  centroid_x : List ℚ
  centroid_y : List ℚ
  longest_distance : List ℚ
  shortest_distance : List ℚ
  elliptic_ratio : List ℚ
  vector_length : List ℚ
  vector_angle : List ℚ
  deriving DecidableEq, Repr

/-- The body of the compute_all loop for one processed frame: every metric
array is written at index `frame` only, and elliptic_ratio is written only
when the just-computed shortest distance is nonzero (report.py lines
106-117). -/
def computeFrame (c : FrameComputation) (st : MetricArrays) (f : ℕ) : MetricArrays where
  lumen_area := st.lumen_area.set f c.area
  lumen_circumf := st.lumen_circumf.set f c.circumf
  centroid_x := st.centroid_x.set f c.cx
  centroid_y := st.centroid_y.set f c.cy
  longest_distance := st.longest_distance.set f c.longest
  shortest_distance := st.shortest_distance.set f c.shortest
  elliptic_ratio :=
    if c.shortest ≠ 0 then st.elliptic_ratio.set f (c.longest / c.shortest)
    else st.elliptic_ratio
  vector_length := st.vector_length.set f c.vlen
  vector_angle := st.vector_angle.set f c.vangle

/-- The skip test of the compute_all loop (report.py line 94): values
already computed for this frame, i.e. lumen_area truthy and elliptic_ratio
nonzero. -/
def frameComputed (st : MetricArrays) (f : ℕ) : Prop :=
  st.lumen_area.getD f 0 ≠ 0 ∧ st.elliptic_ratio.getD f 0 ≠ 0

instance (st : MetricArrays) (f : ℕ) : Decidable (frameComputed st f) :=
  inferInstanceAs (Decidable (_ ∧ _))

/-- The metric loop of compute_all in report.py: fold over the contoured
frames, skipping frames whose values are already computed; `metricsOf`
abstracts the per-frame geometry (it depends only on the frame index, i.e.
on that frame's own knot contour). -/
def compute_all (metricsOf : ℕ → FrameComputation) (contoured_frames : List ℕ)
    (st : MetricArrays) : MetricArrays :=
  contoured_frames.foldl
    (fun st f => if frameComputed st f then st else computeFrame (metricsOf f) st f) st

/-- The stored metric values of one frame. -/
def entriesAt (st : MetricArrays) (f : ℕ) : List ℚ :=
  [st.lumen_area.getD f 0, st.lumen_circumf.getD f 0, st.centroid_x.getD f 0,
   st.centroid_y.getD f 0, st.longest_distance.getD f 0, st.shortest_distance.getD f 0,
   st.elliptic_ratio.getD f 0, st.vector_length.getD f 0, st.vector_angle.getD f 0]

/-- Modelled from the spec: editing a frame's knot contour resets that
frame's stored metrics to the zero "not computed" sentinel, so the next
metrics pass recomputes exactly that frame (the reset itself lives in the
GUI editing code outside src/; spec section 3, FrameMetrics lifecycle, and
section 8, scenario D). -/
def editFrame (st : MetricArrays) (f : ℕ) : MetricArrays where
  lumen_area := st.lumen_area.set f 0
  lumen_circumf := st.lumen_circumf.set f 0
  centroid_x := st.centroid_x.set f 0
  centroid_y := st.centroid_y.set f 0
  longest_distance := st.longest_distance.set f 0
  shortest_distance := st.shortest_distance.set f 0
  elliptic_ratio := st.elliptic_ratio.set f 0
  vector_length := st.vector_length.set f 0
  vector_angle := st.vector_angle.set f 0

lemma entriesAt_computeFrame_ne (c : FrameComputation) (st : MetricArrays)
    (w r : ℕ) (h : r ≠ w) :
    entriesAt (computeFrame c st w) r = entriesAt st r := by
  have hwr : w ≠ r := fun hh => h hh.symm
  by_cases hs : c.shortest = 0 <;>
    simp [entriesAt, computeFrame, hs, getD_set_ne, hwr]

lemma entriesAt_editFrame_ne (st : MetricArrays) (w r : ℕ) (h : r ≠ w) :
    entriesAt (editFrame st w) r = entriesAt st r := by
  have hwr : w ≠ r := fun hh => h hh.symm
  simp [entriesAt, editFrame, getD_set_ne, hwr]

lemma frameComputed_congr (st st2 : MetricArrays) (g : ℕ)
    (h : entriesAt st g = entriesAt st2 g) :
    (frameComputed st g ↔ frameComputed st2 g) := by
  simp only [entriesAt, List.cons.injEq, and_true] at h
  obtain ⟨h1, _, _, _, _, _, h7, _, _⟩ := h
  unfold frameComputed
  rw [h1, h7]

lemma compute_all_cons (metricsOf : ℕ → FrameComputation) (g : ℕ) (rest : List ℕ)
    (st : MetricArrays) :
    compute_all metricsOf (g :: rest) st =
      compute_all metricsOf rest
        (if frameComputed st g then st else computeFrame (metricsOf g) st g) := rfl

lemma compute_all_id (metricsOf : ℕ → FrameComputation) (frames : List ℕ) :
    ∀ st : MetricArrays, (∀ g ∈ frames, frameComputed st g) →
      compute_all metricsOf frames st = st := by
  induction frames with
  | nil => intro st _; rfl
  | cons g rest ih =>
    intro st h
    rw [compute_all_cons, if_pos (h g (List.mem_cons_self _ _))]
    exact ih st (fun x hx => h x (List.mem_cons_of_mem _ hx))

lemma compute_all_skip (metricsOf : ℕ → FrameComputation) (frames : List ℕ) :
    ∀ (st : MetricArrays) (f : ℕ), frameComputed st f →
      entriesAt (compute_all metricsOf frames st) f = entriesAt st f := by
  induction frames with
  | nil => intro st f _; rfl
  | cons g rest ih =>
    intro st f h
    rw [compute_all_cons]
    by_cases hg : frameComputed st g
    · rw [if_pos hg]
      exact ih st f h
    · rw [if_neg hg]
      by_cases hgf : g = f
      · subst hgf; exact absurd h hg
      · have hent : entriesAt (computeFrame (metricsOf g) st g) f = entriesAt st f :=
          entriesAt_computeFrame_ne _ _ _ _ (fun hh => hgf hh.symm)
        have hcomp : frameComputed (computeFrame (metricsOf g) st g) f :=
          (frameComputed_congr _ _ _ hent).mpr h
        rw [ih _ f hcomp, hent]

lemma compute_all_append (metricsOf : ℕ → FrameComputation) (l1 l2 : List ℕ)
    (st : MetricArrays) :
    compute_all metricsOf (l1 ++ l2) st =
      compute_all metricsOf l2 (compute_all metricsOf l1 st) :=
  List.foldl_append _ _ _ _

/-- C9: the metric loop skips every frame whose values are already computed
(its stored metrics are unchanged by the pass), and after a single frame's
knot edit resets its sentinel, a pass over fully computed frames recomputes
exactly that frame: the result is one computeFrame write, and every other
frame's stored metrics are unchanged. -/
theorem compute_all_per_frame (metricsOf : ℕ → FrameComputation) :
    (∀ (frames : List ℕ) (st : MetricArrays) (f : ℕ),
        frameComputed st f →
        entriesAt (compute_all metricsOf frames st) f = entriesAt st f) ∧
    (∀ (frames : List ℕ) (st : MetricArrays) (f : ℕ),
        frames.Nodup → f ∈ frames → (∀ g ∈ frames, frameComputed st g) →
        f < st.lumen_area.length →
        compute_all metricsOf frames (editFrame st f) =
          computeFrame (metricsOf f) (editFrame st f) f ∧
        (∀ g, g ≠ f →
          entriesAt (compute_all metricsOf frames (editFrame st f)) g =
            entriesAt st g)) := by
  constructor
  · exact fun frames => compute_all_skip metricsOf frames
  · intro frames st f hnd hf hcomp hflen
    obtain ⟨l1, l2, hsplit⟩ := List.append_of_mem hf
    subst hsplit
    have hnd2 := List.nodup_append.mp hnd
    have hfl1 : f ∉ l1 := fun hmem => hnd2.2.2 hmem (List.mem_cons_self _ _)
    have hfl2 : f ∉ l2 := (List.nodup_cons.mp hnd2.2.1).1
    have hentedit : ∀ g, g ≠ f → entriesAt (editFrame st f) g = entriesAt st g :=
      fun g hg => entriesAt_editFrame_ne st f g hg
    have hl1comp : ∀ g ∈ l1, frameComputed (editFrame st f) g := by
      intro g hg
      have hgf : g ≠ f := fun hh => hfl1 (hh ▸ hg)
      exact (frameComputed_congr _ _ _ (hentedit g hgf)).mpr
        (hcomp g (List.mem_append_left _ hg))
    have hstep1 : compute_all metricsOf l1 (editFrame st f) = editFrame st f :=
      compute_all_id metricsOf l1 _ hl1comp
    have hnotcomp : ¬ frameComputed (editFrame st f) f := by
      intro hcf
      have : (editFrame st f).lumen_area.getD f 0 = 0 :=
        getD_set_self st.lumen_area 0 0 hflen
      exact hcf.1 this
    have hmain : compute_all metricsOf (l1 ++ f :: l2) (editFrame st f) =
        computeFrame (metricsOf f) (editFrame st f) f := by
      rw [compute_all_append, hstep1, compute_all_cons, if_neg hnotcomp]
      apply compute_all_id
      intro g hg
      have hgf : g ≠ f := fun hh => hfl2 (hh ▸ hg)
      have he1 : entriesAt (computeFrame (metricsOf f) (editFrame st f) f) g =
          entriesAt (editFrame st f) g :=
        entriesAt_computeFrame_ne _ _ _ _ hgf
      exact (frameComputed_congr _ _ _ (by rw [he1, hentedit g hgf])).mpr
        (hcomp g (List.mem_append_right _ (List.mem_cons_of_mem _ hg)))
    refine ⟨hmain, ?_⟩
    intro g hg
    rw [hmain, entriesAt_computeFrame_ne _ _ _ _ hg, hentedit g hg]

/-- C8: in a processed frame, elliptic_ratio is written as
longest_distance / shortest_distance exactly when the computed shortest
distance is nonzero; when it is zero the elliptic_ratio array is untouched,
so a frame that started at the zero sentinel keeps it and the loop never
divides by a zero shortest distance. -/
theorem compute_elliptic_guard (c : FrameComputation) (st : MetricArrays) (f : ℕ)
    (hl : f < st.longest_distance.length)
    (hs : f < st.shortest_distance.length)
    (he : f < st.elliptic_ratio.length) :
    (c.shortest ≠ 0 →
      (computeFrame c st f).elliptic_ratio.getD f 0 =
        (computeFrame c st f).longest_distance.getD f 0 /
          (computeFrame c st f).shortest_distance.getD f 0 ∧
      (computeFrame c st f).elliptic_ratio.getD f 0 = c.longest / c.shortest) ∧
    (c.shortest = 0 →
      (computeFrame c st f).elliptic_ratio = st.elliptic_ratio ∧
      (st.elliptic_ratio.getD f 0 = 0 →
        (computeFrame c st f).elliptic_ratio.getD f 0 = 0)) := by
  constructor
  · intro hnz
    have h1 : (computeFrame c st f).longest_distance.getD f 0 = c.longest :=
      getD_set_self _ _ _ hl
    have h2 : (computeFrame c st f).shortest_distance.getD f 0 = c.shortest :=
      getD_set_self _ _ _ hs
    have h3 : (computeFrame c st f).elliptic_ratio.getD f 0 = c.longest / c.shortest := by
      show (if c.shortest ≠ 0 then st.elliptic_ratio.set f (c.longest / c.shortest)
            else st.elliptic_ratio).getD f 0 = c.longest / c.shortest
    
      rw [if_pos hnz]
      exact getD_set_self _ _ _ he
    exact ⟨by rw [h1, h2, h3], h3⟩
  · intro hz
    have h4 : (computeFrame c st f).elliptic_ratio = st.elliptic_ratio := by
      show (if c.shortest ≠ 0 then st.elliptic_ratio.set f (c.longest / c.shortest)
            else st.elliptic_ratio) = st.elliptic_ratio
      rw [if_neg (by simp [hz])]
    exact ⟨h4, fun h0 => by rw [h4]; exact h0⟩

/-- Concrete per-frame metrics with nonzero shortest distance. -/
def cW : FrameComputation := ⟨2, 3, 4, 5, 6, 2, 7, 8⟩

/-- Concrete per-frame metrics with zero shortest distance. -/
def cZ : FrameComputation := ⟨2, 3, 4, 5, 6, 0, 7, 8⟩

/-- Concrete metric state: two frames, all entries computed (nonzero). -/
def stW : MetricArrays := ⟨[1, 1], [1, 1], [1, 1], [1, 1], [1, 1], [1, 1], [1, 1],
  [1, 1], [1, 1]⟩

/-- Concrete metric state: one frame at the zero sentinel. -/
def stZ : MetricArrays := ⟨[0], [0], [0], [0], [0], [0], [0], [0], [0]⟩

/-- Closed instance of the C8 theorem at concrete frame computations. -/
theorem compute_elliptic_guard_inst :
    ((computeFrame cW stZ 0).elliptic_ratio.getD 0 0 =
      (computeFrame cW stZ 0).longest_distance.getD 0 0 /
        (computeFrame cW stZ 0).shortest_distance.getD 0 0 ∧
     (computeFrame cW stZ 0).elliptic_ratio.getD 0 0 = cW.longest / cW.shortest) ∧
    ((computeFrame cZ stZ 0).elliptic_ratio = stZ.elliptic_ratio ∧
     (computeFrame cZ stZ 0).elliptic_ratio.getD 0 0 = 0) :=
  ⟨(compute_elliptic_guard cW stZ 0 (by decide) (by decide) (by decide)).1 (by decide),
   ⟨((compute_elliptic_guard cZ stZ 0 (by decide) (by decide) (by decide)).2 rfl).1,
    ((compute_elliptic_guard cZ stZ 0 (by decide) (by decide) (by decide)).2 rfl).2
      (by decide)⟩⟩

/-- Concrete per-frame metrics oracle for the C9 witness. -/
def mW : ℕ → FrameComputation := fun _ => cW

/-- Closed instance of the C9 theorem: a fully computed two-frame state is
left unchanged by a pass, and after editing frame 0 only frame 0 is
recomputed. -/
theorem compute_all_per_frame_inst :
    entriesAt (compute_all mW [0, 1] stW) 0 = entriesAt stW 0 ∧
    (compute_all mW [0, 1] (editFrame stW 0) = computeFrame (mW 0) (editFrame stW 0) 0 ∧
      (∀ g, g ≠ 0 →
        entriesAt (compute_all mW [0, 1] (editFrame stW 0)) g = entriesAt stW g)) :=
  ⟨(compute_all_per_frame mW).1 [0, 1] stW 0 (by decide),
   (compute_all_per_frame mW).2 [0, 1] stW 0 (by decide) (by decide) (by decide)
     (by decide)⟩
